import Mathlib

/-!
Shallow embedding of `src/fuzzy-search.ts` (classes `FuzzyMatchSettings`,
functions `fuzzySearch` and `fuzzySearchByProperty`).

JS strings are modelled as `List Char`; JS `toLowerCase`/`toUpperCase` as
character-wise `Char.toLower`/`Char.toUpper`; the JS number parameters of the
settings constructor as `Option Int` (`none` = parameter absent); thrown
exceptions as `Except String`.  Candidate items (which in the source are
either JS strings or objects carrying the designated property) are modelled
by the inductive `Item`: `Item.str s` is a primitive string, `Item.obj v` an
object whose designated property holds the string `v` (`Item.obj none`: the
property is absent or not a string, so `typeof x[p] !== 'string'` and
`String(x[p])` yields `"undefined"`).
-/

deriving instance DecidableEq for Except

namespace FuzzySearchTS

/-- JS strings, as lists of characters. -/
abbrev Str := List Char

/-- Character-wise `toLowerCase`. -/
def lowerStr (s : Str) : Str := s.map Char.toLower

/-- Character-wise `toUpperCase`. -/
def upperStr (s : Str) : Str := s.map Char.toUpper

/-- `startsAt q t` : `q` occurs at the beginning of `t`. -/
def startsAt : Str → Str → Bool
  | [], _ => true
  | _ :: _, [] => false
  | a :: qs, b :: ts => a == b && startsAt qs ts

/-- JS `t.includes(q)` : `q` occurs somewhere in `t` as a contiguous
substring. -/
def jsIncludes : Str → Str → Bool
  | [], q => startsAt q []
  | c :: t, q => startsAt q (c :: t) || jsIncludes t q

/-- The four (validated) fields of `FuzzyMatchSettings`
(`src/fuzzy-search.ts`, lines 27-68). -/
structure FuzzyMatchSettings where
  minimum_length_for_search : Nat
  minimum_length_for_fuzzy_match : Nat
  percentage_allowed_mismatch : Nat
  case_sensitive_match : Bool
deriving DecidableEq

/-- Internal setting `maximum_allowed_mismatch` (line 35). -/
def maximum_allowed_mismatch : Int := 50

/-- JS `if (!x) x = dflt;` for an optional number parameter: `undefined`
and `0` are falsy and replaced by the default (lines 48-50). -/
def effParam : Option Int → Int → Int
  | none, d => d
  | some v, d => if v = 0 then d else v

/-- JS `if (!x) x = dflt;` for an optional boolean parameter (line 51). -/
def effFlag : Option Bool → Bool → Bool
  | none, d => d
  | some b, d => if b = false then d else b

/-- The `FuzzyMatchSettings` constructor (lines 41-67): falsy arguments are
replaced by the defaults `1, 5, 25, false`, then the three numeric fields
are validated in order; a violation throws. -/
def FuzzyMatchSettings.make (minimum_length_for_search : Option Int)
    (minimum_length_for_fuzzy_match : Option Int)
    (percentage_allowed_mismatch : Option Int)
    (case_sensitive : Option Bool) : Except String FuzzyMatchSettings :=
  let ms : Int := effParam minimum_length_for_search 1
  let mf : Int := effParam minimum_length_for_fuzzy_match 5
  let pm : Int := effParam percentage_allowed_mismatch 25
  let cs : Bool := effFlag case_sensitive false
  if ms ≤ 0 then
    .error "Invalid value provided for minimum_length_for_search in FuzzyMatchSettings"
  else if mf ≤ 0 then
    .error "Invalid value provided for minimum_length_for_fuzzy_match in FuzzyMatchSettings"
  else if pm < 0 ∨ pm > maximum_allowed_mismatch then
    .error "Invalid value provided for percentage_allowed_mismatch in FuzzyMatchSettings"
  else
    .ok ⟨ms.toNat, mf.toNat, pm.toNat, cs⟩

/-- `new FuzzyMatchSettings()` : all parameters absent, all defaults. -/
def defaultSettings : FuzzyMatchSettings := ⟨1, 5, 25, false⟩

/-- The settings-model invariant of the data model: the three numeric
fields are in the ranges the constructor validates. -/
def FuzzyMatchSettings.Valid (s : FuzzyMatchSettings) : Prop :=
  0 < s.minimum_length_for_search ∧ 0 < s.minimum_length_for_fuzzy_match ∧
    s.percentage_allowed_mismatch ≤ 50

/-- A candidate item: a JS string, or an object whose designated property
is the string `v` (`none`: absent or not a string). -/
inductive Item where
  | str : Str → Item
  | obj : Option Str → Item
deriving DecidableEq

/-- JS `typeof item === 'string'`. -/
def typeofString : Item → Bool
  | .str _ => true
  | .obj _ => false

/-- JS `item[itemProperty]` restricted to the modelled cases: property
lookup on a primitive string, or with a `null` property name, yields
`undefined`; on an object with a designated property it yields that
property's string value when it is one. -/
def jsPropGet (itemProperty : Option Str) : Item → Option Str
  | .str _ => none
  | .obj v =>
    match itemProperty with
    | none => none
    | some _ => v

/-- JS `String(undefined)`. -/
def undefinedStr : Str := 'u' :: 'n' :: 'd' :: 'e' :: 'f' :: 'i' :: 'n' :: 'e' :: 'd' :: []

/-- JS `String(item[itemProperty])` in the modelled cases. -/
def exactText (itemProperty : Option Str) (x : Item) : Str :=
  (jsPropGet itemProperty x).getD undefinedStr

/-- The guard of line 125:
`typeof items[0] !== 'string' && (itemProperty === null || typeof items[0][itemProperty] !== 'string')`. -/
def guardFails (itemProperty : Option Str) (x : Item) : Bool :=
  !(typeofString x) && (itemProperty.isNone || (jsPropGet itemProperty x).isNone)

/-- The per-item comparison text `_item` of the fuzzy tier
(lines 166-173). -/
def fuzzyText (cs : Bool) (itemProperty : Option Str) (x : Item) : Str :=
  match x with
  | .str s => if cs then s else lowerStr s
  | .obj v =>
    if cs then exactText itemProperty (.obj v)
    else lowerStr (exactText itemProperty (.obj v))

/-- The inner `for` loop of lines 179-181: scan the query/window character
pairs, incrementing the mismatch count on each differing pair, and abandon
the scan as soon as the count exceeds `maxMM`; returns the count at exit. -/
def scanPairsEarly (maxMM : Nat) : List (Char × Char) → Nat → Nat
  | [], cnt => cnt
  | p :: rest, cnt =>
    if p.1 = p.2 then scanPairsEarly maxMM rest cnt
    else if cnt + 1 > maxMM then cnt + 1
    else scanPairsEarly maxMM rest (cnt + 1)

/-- The `while` loop of lines 175-189, recursing on the remaining suffix of
the candidate text in place of the `left` offset: while a window of the
query's length fits, scan it with early exit; accept if the exit count is
within `maxMM`, otherwise slide the window one character right. -/
def fuzzyScan (q : Str) (maxMM : Nat) : Str → Bool
  | [] => false
  | c :: t =>
    if q.length ≤ (c :: t).length then
      if scanPairsEarly maxMM (q.zip (c :: t)) 0 ≤ maxMM then true
      else fuzzyScan q maxMM t
    else false

/-- The exact-substring tier (lines 135-146).  Note the faithful bug: when
the items are primitive strings the source computes
`items.filter((x) => String(x).includes(...))` but discards the result, so
the returned filter always compares `String(x[itemProperty])`. -/
def exactTierFilter (q : Str) (itemProperty : Option Str) (cs : Bool)
    (items : List Item) : List Item :=
  if cs then items.filter (fun x => jsIncludes (exactText itemProperty x) q)
  else
    items.filter (fun x =>
      jsIncludes (lowerStr (exactText itemProperty x)) (lowerStr q))

/-- The fuzzy tier (lines 148-191): case-fold the query if requested,
compute `max_allowed_mismatch_count = floor(len * pct / 100)`, and keep the
items accepted by the sliding-window scan, in order. -/
def fuzzyTierFilter (q : Str) (itemProperty : Option Str)
    (s : FuzzyMatchSettings) (items : List Item) : List Item :=
  let q' := if s.case_sensitive_match then q else lowerStr q
  let maxMM := q.length * s.percentage_allowed_mismatch / 100
  items.filter (fun x =>
    fuzzyScan q' maxMM (fuzzyText s.case_sensitive_match itemProperty x))

/-- `fuzzySearchByProperty` (lines 117-191). -/
def fuzzySearchByProperty (searchString : Str) (items : List Item)
    (itemProperty : Option Str) (searchSettings : Option FuzzyMatchSettings) :
    Except String (List Item) :=
  if searchString.length = 0 then .ok []
  else
    match items with
    | [] => .ok []
    | item0 :: _ =>
      if guardFails itemProperty item0 then
        .error "A string property must be provided to perform fuzzy search on an object"
      else
        let s := searchSettings.getD defaultSettings
        if searchString.length < s.minimum_length_for_search then .ok []
        else if searchString.length < s.minimum_length_for_fuzzy_match then
          .ok (exactTierFilter searchString itemProperty s.case_sensitive_match items)
        else .ok (fuzzyTierFilter searchString itemProperty s items)

/-- `fuzzySearch` (lines 94-96): delegation to `fuzzySearchByProperty` with
a `null` property. -/
def fuzzySearch (searchString : Str) (items : List Str)
    (searchSettings : Option FuzzyMatchSettings) : Except String (List Item) :=
  fuzzySearchByProperty searchString (items.map Item.str) none searchSettings

/-- Convenience for writing string literals as `Str`. -/
def strL (s : String) : Str := s.toList


theorem char_toNat_ofNat_valid {n : Nat} (h : n.isValidChar) : (Char.ofNat n).toNat = n := by
  simp only [Char.ofNat, h, dif_pos, Char.ofNatAux, Char.toNat, UInt32.toNat]
  simp

theorem toLower_toUpper (c : Char) : c.toUpper.toLower = c.toLower := by
  unfold Char.toUpper Char.toLower
  by_cases h : c.toNat ≥ 97 ∧ c.toNat ≤ 122
  · rw [if_pos h]
    have hv : (c.toNat - 32).isValidChar := Or.inl (by omega)
    have ht : (Char.ofNat (c.toNat - 32)).toNat = c.toNat - 32 := char_toNat_ofNat_valid hv
    rw [ht, if_pos (by omega), if_neg (by omega)]
    have : c.toNat - 32 + 32 = c.toNat := by omega
    rw [this, Char.ofNat_toNat]
  · rw [if_neg h]

theorem toLower_toLower (c : Char) : c.toLower.toLower = c.toLower := by
  unfold Char.toLower
  by_cases h : c.toNat ≥ 65 ∧ c.toNat ≤ 90
  · rw [if_pos h]
    have hv : (c.toNat + 32).isValidChar := Or.inl (by omega)
    have ht : (Char.ofNat (c.toNat + 32)).toNat = c.toNat + 32 := char_toNat_ofNat_valid hv
    rw [ht, if_neg (by omega)]
  · rw [if_neg h, if_neg h]

theorem startsAt_iff (q t : Str) :
    startsAt q t = true ↔ q.length ≤ t.length ∧ t.take q.length = q := by
  induction q generalizing t with
  | nil => simp [startsAt]
  | cons a qs ih =>
    cases t with
    | nil => simp [startsAt]
    | cons b ts =>
      simp only [startsAt, Bool.and_eq_true, beq_iff_eq, ih, List.length_cons,
        List.take_succ_cons, List.cons.injEq]
      constructor
      · rintro ⟨rfl, h1, h2⟩
        exact ⟨by omega, rfl, h2⟩
      · rintro ⟨h1, rfl, h2⟩
        exact ⟨rfl, by omega, h2⟩

theorem jsIncludes_iff (t q : Str) :
    jsIncludes t q = true ↔
      ∃ l, l + q.length ≤ t.length ∧ (t.drop l).take q.length = q := by
  induction t with
  | nil =>
    simp only [jsIncludes, startsAt_iff]
    constructor
    · rintro ⟨h1, h2⟩
      exact ⟨0, by simpa using h1, by simpa using h2⟩
    · rintro ⟨l, h1, h2⟩
      simp only [List.length_nil] at h1
      constructor
      · omega
      · simpa [List.drop_nil] using h2
  | cons c ts ih =>
    simp only [jsIncludes, Bool.or_eq_true, startsAt_iff, ih]
    constructor
    · rintro (⟨h1, h2⟩ | ⟨l, h1, h2⟩)
      · exact ⟨0, by simpa using h1, by simpa using h2⟩
      · exact ⟨l + 1, by simp only [List.length_cons]; omega, by simpa using h2⟩
    · rintro ⟨l, h1, h2⟩
      cases l with
      | zero => exact Or.inl ⟨by simpa using h1, by simpa using h2⟩
      | succ l' =>
        exact Or.inr ⟨l', by simp at h1; omega, by simpa using h2⟩

/-- Reference definition, following the spec's words: the number of
character positions where the query and the window differ. -/
def mismatchCount (q w : Str) : Nat :=
  (q.zip w).countP (fun p => !(p.1 == p.2))

/-- Reference definition, following the spec's words: score every full
window at each offset `left` from `0` to `len(candidate) - len(query)`
inclusive and accept iff some window's full mismatch count is within the
threshold. -/
def referenceAccepts (q t : Str) (maxMM : Nat) : Bool :=
  (List.range (t.length + 1 - q.length)).any
    (fun l => decide (mismatchCount q ((t.drop l).take q.length) ≤ maxMM))

theorem scanPairsEarly_le_iff (maxMM : Nat) (ps : List (Char × Char)) (cnt : Nat) :
    scanPairsEarly maxMM ps cnt ≤ maxMM ↔
      cnt + ps.countP (fun p => !(p.1 == p.2)) ≤ maxMM := by
  induction ps generalizing cnt with
  | nil => simp [scanPairsEarly]
  | cons p rest ih =>
    simp only [scanPairsEarly, List.countP_cons]
    by_cases h : p.1 = p.2
    · simp [h, ih]
    · simp only [h, if_false, decide_not, decide_eq_true_eq]
      by_cases h2 : cnt + 1 > maxMM
      · rw [if_pos h2]
        have hb : (!(p.1 == p.2)) = true := by simp [h]
        rw [if_pos hb]
        omega
      · rw [if_neg h2, ih]
        have hb : (!(p.1 == p.2)) = true := by simp [h]
        rw [if_pos hb]
        omega

theorem zip_take_right (q t : Str) : q.zip (t.take q.length) = q.zip t := by
  induction q generalizing t with
  | nil => simp
  | cons a qs ih =>
    cases t with
    | nil => simp
    | cons b ts => simp [List.zip_cons_cons, ih]

theorem fuzzyScan_iff (q : Str) (maxMM : Nat) (t : Str) (hq : 0 < q.length) :
    fuzzyScan q maxMM t = true ↔
      ∃ l, l + q.length ≤ t.length ∧
        mismatchCount q ((t.drop l).take q.length) ≤ maxMM := by
  induction t with
  | nil =>
    simp only [fuzzyScan, List.length_nil]
    constructor
    · intro h; exact absurd h (by simp)
    · rintro ⟨l, h1, _⟩; omega
  | cons c ts ih =>
    rw [show fuzzyScan q maxMM (c :: ts) =
      (if q.length ≤ (c :: ts).length then
        if scanPairsEarly maxMM (q.zip (c :: ts)) 0 ≤ maxMM then true
        else fuzzyScan q maxMM ts
      else false) from rfl]
    by_cases hfit : q.length ≤ (c :: ts).length
    · rw [if_pos hfit]
      have hhead : (scanPairsEarly maxMM (q.zip (c :: ts)) 0 ≤ maxMM) ↔
          mismatchCount q (((c :: ts).drop 0).take q.length) ≤ maxMM := by
        rw [scanPairsEarly_le_iff]
        simp only [List.drop_zero, mismatchCount, zip_take_right]
        omega
      by_cases hs : scanPairsEarly maxMM (q.zip (c :: ts)) 0 ≤ maxMM
      · rw [if_pos hs]
        simp only [true_iff]
        exact ⟨0, by simpa using hfit, hhead.mp hs⟩
      · rw [if_neg hs]
        rw [ih]
        constructor
        · rintro ⟨l, h1, h2⟩
          exact ⟨l + 1, by simp only [List.length_cons]; omega, by simpa using h2⟩
        · rintro ⟨l, h1, h2⟩
          cases l with
          | zero => exact absurd (hhead.mpr (by simpa using h2)) hs
          | succ l' =>
            exact ⟨l', by simp only [List.length_cons] at h1; omega, by simpa using h2⟩
    · rw [if_neg hfit]
      simp only [List.length_cons] at hfit
      constructor
      · intro h; exact absurd h (by simp)
      · rintro ⟨l, h1, _⟩
        simp only [List.length_cons] at h1
        omega

theorem referenceAccepts_iff (q t : Str) (maxMM : Nat) :
    referenceAccepts q t maxMM = true ↔
      ∃ l, l + q.length ≤ t.length ∧
        mismatchCount q ((t.drop l).take q.length) ≤ maxMM := by
  simp only [referenceAccepts, List.any_eq_true, List.mem_range, decide_eq_true_eq]
  constructor
  · rintro ⟨l, h1, h2⟩
    exact ⟨l, by omega, h2⟩
  · rintro ⟨l, h1, h2⟩
    exact ⟨l, by omega, h2⟩

theorem fuzzyScan_eq_referenceAccepts (q t : Str) (maxMM : Nat) (hq : 0 < q.length) :
    fuzzyScan q maxMM t = referenceAccepts q t maxMM := by
  rw [Bool.eq_iff_iff, fuzzyScan_iff q maxMM t hq, referenceAccepts_iff]

theorem fuzzyScan_mono {m₁ m₂ : Nat} (h : m₁ ≤ m₂) (q t : Str)
    (ht : fuzzyScan q m₁ t = true) : fuzzyScan q m₂ t = true := by
  induction t with
  | nil => simp [fuzzyScan] at ht
  | cons c ts ih =>
    rw [show fuzzyScan q m₁ (c :: ts) =
      (if q.length ≤ (c :: ts).length then
        if scanPairsEarly m₁ (q.zip (c :: ts)) 0 ≤ m₁ then true
        else fuzzyScan q m₁ ts
      else false) from rfl] at ht
    rw [show fuzzyScan q m₂ (c :: ts) =
      (if q.length ≤ (c :: ts).length then
        if scanPairsEarly m₂ (q.zip (c :: ts)) 0 ≤ m₂ then true
        else fuzzyScan q m₂ ts
      else false) from rfl]
    by_cases hfit : q.length ≤ (c :: ts).length
    · rw [if_pos hfit] at ht ⊢
      by_cases hs : scanPairsEarly m₁ (q.zip (c :: ts)) 0 ≤ m₁
      · have : scanPairsEarly m₂ (q.zip (c :: ts)) 0 ≤ m₂ := by
          rw [scanPairsEarly_le_iff] at hs ⊢
          omega
        rw [if_pos this]
      · rw [if_neg hs] at ht
        by_cases hs2 : scanPairsEarly m₂ (q.zip (c :: ts)) 0 ≤ m₂
        · rw [if_pos hs2]
        · rw [if_neg hs2]
          exact ih ht
    · rw [if_neg hfit] at ht
      exact absurd ht (by simp)

theorem mismatchCount_self (q : Str) : mismatchCount q q = 0 := by
  induction q with
  | nil => rfl
  | cons a qs ih =>
    simp only [mismatchCount, List.zip_cons_cons, List.countP_cons] at ih ⊢
    simp [ih]


theorem lowerStr_upperStr (s : Str) : lowerStr (upperStr s) = lowerStr s := by
  simp only [lowerStr, upperStr, List.map_map]
  exact List.map_congr_left (fun c _ => toLower_toUpper c)

theorem lowerStr_lowerStr (s : Str) : lowerStr (lowerStr s) = lowerStr s := by
  simp only [lowerStr, List.map_map]
  exact List.map_congr_left (fun c _ => toLower_toLower c)

theorem length_lowerStr (s : Str) : (lowerStr s).length = s.length := by
  simp [lowerStr]

theorem length_upperStr (s : Str) : (upperStr s).length = s.length := by
  simp [upperStr]

theorem filter_const {α : Type} (b : Bool) (l : List α) :
    l.filter (fun _ => b) = if b then l else [] := by
  cases b <;> induction l <;> simp_all [List.filter]

/-- Case folding as the engine applies it: identity when the match is
case-sensitive, lower-casing otherwise. -/
def foldCase (cs : Bool) (s : Str) : Str := if cs then s else lowerStr s

theorem length_foldCase (cs : Bool) (s : Str) : (foldCase cs s).length = s.length := by
  cases cs <;> simp [foldCase, length_lowerStr]

/-- Uniformly transform the text a candidate carries. -/
def mapItemText (f : Str → Str) : Item → Item
  | .str s => .str (f s)
  | .obj v => .obj (v.map f)

theorem query_fold_invariant (s : FuzzyMatchSettings)
    (hcs : s.case_sensitive_match = false) (g : Str → Str)
    (hg : ∀ u, lowerStr (g u) = lowerStr u)
    (hgl : ∀ u, (g u).length = u.length)
    (q : Str) (items : List Item) (ip : Option Str) :
    fuzzySearchByProperty (g q) items ip (some s) =
      fuzzySearchByProperty q items ip (some s) := by
  unfold fuzzySearchByProperty
  rw [hgl q]
  by_cases hq : q.length = 0
  · rw [if_pos hq, if_pos hq]
  · rw [if_neg hq, if_neg hq]
    cases items with
    | nil => rfl
    | cons i0 rest =>
      simp only [Option.getD_some]
      by_cases hgd : guardFails ip i0 = true
      · rw [if_pos hgd, if_pos hgd]
      · rw [if_neg hgd, if_neg hgd]
        by_cases t1 : q.length < s.minimum_length_for_search
        · rw [if_pos t1, if_pos t1]
        · rw [if_neg t1, if_neg t1]
          by_cases t2 : q.length < s.minimum_length_for_fuzzy_match
          · rw [if_pos t2, if_pos t2]
            unfold exactTierFilter
            rw [hcs]
            simp only [Bool.false_eq_true, if_false, hg]
          · rw [if_neg t2, if_neg t2]
            unfold fuzzyTierFilter
            rw [hcs]
            simp only [Bool.false_eq_true, if_false, hg, hgl]

theorem guardFails_mapItemText (ip : Option Str) (g : Str → Str) (x : Item) :
    guardFails ip (mapItemText g x) = guardFails ip x := by
  cases x with
  | str u => rfl
  | obj v =>
    cases ip with
    | none => rfl
    | some p => cases v <;> rfl

theorem lower_exactText_mapItemText (ip : Option Str) (g : Str → Str)
    (hg : ∀ u, lowerStr (g u) = lowerStr u) (x : Item) :
    lowerStr (exactText ip (mapItemText g x)) = lowerStr (exactText ip x) := by
  cases x with
  | str u => rfl
  | obj v =>
    cases ip with
    | none => cases v <;> rfl
    | some p => cases v with
      | none => rfl
      | some u => exact hg u

theorem fuzzyText_mapItemText (ip : Option Str) (g : Str → Str)
    (hg : ∀ u, lowerStr (g u) = lowerStr u) (x : Item) :
    fuzzyText false ip (mapItemText g x) = fuzzyText false ip x := by
  cases x with
  | str u => exact hg u
  | obj v => exact lower_exactText_mapItemText ip g hg (.obj v)

theorem items_fold_invariant (s : FuzzyMatchSettings)
    (hcs : s.case_sensitive_match = false) (g : Str → Str)
    (hg : ∀ u, lowerStr (g u) = lowerStr u)
    (q : Str) (items : List Item) (ip : Option Str) :
    fuzzySearchByProperty q (items.map (mapItemText g)) ip (some s) =
      (fuzzySearchByProperty q items ip (some s)).map (List.map (mapItemText g)) := by
  unfold fuzzySearchByProperty
  by_cases hq : q.length = 0
  · rw [if_pos hq, if_pos hq]; rfl
  · rw [if_neg hq, if_neg hq]
    cases items with
    | nil => rfl
    | cons i0 rest =>
      simp only [List.map_cons, Option.getD_some]
      rw [guardFails_mapItemText]
      by_cases hgd : guardFails ip i0 = true
      · rw [if_pos hgd, if_pos hgd]; rfl
      · rw [if_neg hgd, if_neg hgd]
        by_cases t1 : q.length < s.minimum_length_for_search
        · rw [if_pos t1, if_pos t1]; rfl
        · rw [if_neg t1, if_neg t1]
          by_cases t2 : q.length < s.minimum_length_for_fuzzy_match
          · rw [if_pos t2, if_pos t2]
            unfold exactTierFilter
            rw [hcs]
            simp only [Bool.false_eq_true, if_false, Except.map]
            rw [← List.map_cons, List.filter_map]
            congr 1
            congr 1
            apply List.filter_congr
            intro x _
            simp only [Function.comp_apply, lower_exactText_mapItemText ip g hg x]
          · rw [if_neg t2, if_neg t2]
            unfold fuzzyTierFilter
            rw [hcs]
            simp only [Bool.false_eq_true, if_false, Except.map]
            rw [← List.map_cons, List.filter_map]
            congr 1
            congr 1
            apply List.filter_congr
            intro x _
            simp only [Function.comp_apply, fuzzyText_mapItemText ip g hg x]

/-- Claim C1: the claim states that in the exact-substring tier a candidate
is returned iff its case-folded comparison text contains the case-folded
query; with plain string items and a null property the source discards the
string-branch filter and compares `String(item[null]) = "undefined"`
instead, so the candidate `"hello"`, whose folded text contains the folded
query `"ell"`, is not returned.  This closed theorem evaluates the embedded
code at that failing input: the query is in the exact tier under the
default settings, the containment the claim requires holds, yet the search
returns the empty list. -/
theorem exact_tier_string_items_failing_input_eval :
    jsIncludes (lowerStr (strL "hello")) (lowerStr (strL "ell")) = true
    ∧ defaultSettings.minimum_length_for_search ≤ (strL "ell").length
    ∧ (strL "ell").length < defaultSettings.minimum_length_for_fuzzy_match
    ∧ fuzzySearch (strL "ell") [strL "hello"] none = .ok [] := by
  decide

/-- Claim C2: with default settings, `fuzzySearch "helo" ["hello", "world",
"help"]` has query length 4 in the exact-substring band `[1, 5)` and
returns the empty list. -/
theorem fuzzySearch_helo_default_empty :
    defaultSettings.minimum_length_for_search ≤ (strL "helo").length
    ∧ (strL "helo").length < defaultSettings.minimum_length_for_fuzzy_match
    ∧ fuzzySearch (strL "helo") [strL "hello", strL "world", strL "help"] none = .ok [] := by
  decide

/-- Claim C3: for a non-empty list of plain string items and a query in the
exact-substring band, `fuzzySearch` returns all items when the (case-folded
per settings) constant text `"undefined"` contains the (case-folded per
settings) query, and the empty list otherwise: the string-branch filter is
discarded and every item is compared through `String(item[null])`. -/
theorem string_items_exact_tier_all_or_nothing (s : FuzzyMatchSettings)
    (hv : s.Valid) (q : Str) (items : List Str) (hne : items ≠ [])
    (h1 : s.minimum_length_for_search ≤ q.length)
    (h2 : q.length < s.minimum_length_for_fuzzy_match) :
    fuzzySearch q items (some s) =
      .ok (if jsIncludes (foldCase s.case_sensitive_match undefinedStr)
              (foldCase s.case_sensitive_match q)
            then items.map Item.str else []) := by
  obtain ⟨hms, hmf, _⟩ := hv
  unfold fuzzySearch fuzzySearchByProperty
  rw [if_neg (by omega)]
  cases items with
  | nil => exact absurd rfl hne
  | cons x xs =>
    simp only [List.map_cons]
    rw [show guardFails none (Item.str x) = false from rfl]
    simp only [Bool.false_eq_true, if_false, Option.getD_some]
    rw [if_neg (by omega), if_pos h2]
    congr 1
    unfold exactTierFilter foldCase
    cases hcs : s.case_sensitive_match
    · simp only [Bool.false_eq_true, if_false]
      rw [← List.map_cons, List.filter_map]
      rw [show ((fun x => jsIncludes (lowerStr (exactText none x)) (lowerStr q)) ∘ Item.str)
            = (fun (_ : Str) => jsIncludes (lowerStr undefinedStr) (lowerStr q)) from rfl]
      rw [filter_const]
      cases hb : jsIncludes (lowerStr undefinedStr) (lowerStr q) <;> simp
    · simp only [if_true]
      rw [← List.map_cons, List.filter_map]
      rw [show ((fun x => jsIncludes (exactText none x) q) ∘ Item.str)
            = (fun (_ : Str) => jsIncludes undefinedStr q) from rfl]
      rw [filter_const]
      cases hb : jsIncludes undefinedStr q <;> simp

/-- Witness for claim C3 at a concrete input: the query `"defi"` is in the
default exact band and `"undefined"` contains it, so every item comes
back. -/
theorem string_items_exact_tier_all_or_nothing_witness :
    fuzzySearch (strL "defi") [strL "aa"] (some defaultSettings) =
      .ok [Item.str (strL "aa")] := by
  have h := string_items_exact_tier_all_or_nothing defaultSettings
    ⟨by decide, by decide, by decide⟩ (strL "defi") [strL "aa"]
    (by decide) (by decide) (by decide)
  rw [h]
  decide

/-- Counterexample to claim C4 as stated: the settings model
`⟨10, 5, 25, false⟩` is constructible and valid, the query `"hellox"` has
length 6 ≥ `minimum_length_for_fuzzy_match` = 5, the candidate text equals
the query (an exact substring match), yet the search returns the empty
list, because the `minimum_length_for_search` gate (10) rejects the query
first. -/
theorem fuzzy_tier_exact_substring_counterexample :
    FuzzyMatchSettings.make (some 10) (some 5) none none =
      .ok ⟨10, 5, 25, false⟩
    ∧ (0 < (FuzzyMatchSettings.mk 10 5 25 false).minimum_length_for_search
        ∧ 0 < (FuzzyMatchSettings.mk 10 5 25 false).minimum_length_for_fuzzy_match
        ∧ (FuzzyMatchSettings.mk 10 5 25 false).percentage_allowed_mismatch ≤ 50)
    ∧ (FuzzyMatchSettings.mk 10 5 25 false).minimum_length_for_fuzzy_match ≤ (strL "hellox").length
    ∧ jsIncludes (foldCase false (strL "hellox")) (foldCase false (strL "hellox")) = true
    ∧ fuzzySearchByProperty (strL "hellox") [Item.obj (some (strL "hellox"))]
        (some (strL "p")) (some ⟨10, 5, 25, false⟩) = .ok [] := by
  refine ⟨by decide, by decide, by decide, by decide, by decide⟩

/-- The comparison text of a candidate, as the fuzzy tier uses it before
case folding: a primitive string item is compared as itself (line 169/170),
an object through `String(item[itemProperty])` (lines 172-173). -/
def comparisonText (itemProperty : Option Str) : Item → Str
  | .str s => s
  | .obj v => exactText itemProperty (.obj v)

theorem fuzzyText_eq_foldCase_comparisonText (cs : Bool) (ip : Option Str)
    (x : Item) : fuzzyText cs ip x = foldCase cs (comparisonText ip x) := by
  cases x <;> cases cs <;> rfl

/-- Claim C4, amended: for every valid settings model and every query whose
length is at least `minimum_length_for_fuzzy_match` AND at least
`minimum_length_for_search`, every candidate — a plain string item or an
object, in any (possibly mixed) list — whose case-folded comparison text
contains the case-folded query as an exact contiguous substring is
included in the search result. -/
theorem fuzzy_tier_exact_substring_included (s : FuzzyMatchSettings) (hv : s.Valid)
    (q : Str) (hq : s.minimum_length_for_fuzzy_match ≤ q.length)
    (hq2 : s.minimum_length_for_search ≤ q.length)
    (items : List Item) (ip : Option Str) (x : Item) (hx : x ∈ items)
    (hsub : jsIncludes (foldCase s.case_sensitive_match (comparisonText ip x))
        (foldCase s.case_sensitive_match q) = true)
    (l : List Item)
    (hok : fuzzySearchByProperty q items ip (some s) = .ok l) :
    x ∈ l := by
  obtain ⟨hms, hmf, _⟩ := hv
  unfold fuzzySearchByProperty at hok
  rw [if_neg (by omega)] at hok
  cases items with
  | nil => simp at hx
  | cons i0 rest =>
    simp only [Option.getD_some] at hok
    by_cases hg : guardFails ip i0 = true
    · rw [if_pos hg] at hok
      simp at hok
    · rw [if_neg hg, if_neg (by omega), if_neg (by omega)] at hok
      simp only [Except.ok.injEq] at hok
      subst hok
      unfold fuzzyTierFilter
      refine List.mem_filter.mpr ⟨hx, ?_⟩
      have hquery : (if s.case_sensitive_match then q else lowerStr q) =
          foldCase s.case_sensitive_match q := by
        cases s.case_sensitive_match <;> rfl
      rw [fuzzyText_eq_foldCase_comparisonText, hquery]
      have hlen : 0 < (foldCase s.case_sensitive_match q).length := by
        rw [length_foldCase]; omega
      rw [fuzzyScan_iff _ _ _ hlen]
      obtain ⟨w, hw1, hw2⟩ := (jsIncludes_iff _ _).mp hsub
      exact ⟨w, hw1, by rw [hw2, mismatchCount_self]; exact Nat.zero_le _⟩

/-- Witness for claim C4 at a concrete input: in a mixed list searched with
a null property, the plain string item `"say hello there"` contains the
query `"hello"` and is returned under the default settings. -/
theorem fuzzy_tier_exact_substring_included_witness :
    Item.str (strL "say hello there") ∈ [Item.str (strL "say hello there")] :=
  fuzzy_tier_exact_substring_included defaultSettings
    ⟨by decide, by decide, by decide⟩ (strL "hello") (by decide) (by decide)
    [Item.str (strL "say hello there"), Item.obj (some (strL "nope"))] none
    (Item.str (strL "say hello there")) (by decide) (by decide)
    [Item.str (strL "say hello there")] (by decide)

/-- Claim C5: for a non-empty query, the early-exit sliding-window scan of
the fuzzy tier accepts a candidate text iff the reference scan does, where
the reference scores every full window of the query's length and accepts
iff some window's complete mismatch count is at most
`floor(len(query) * percentage_allowed_mismatch / 100)`. -/
theorem early_exit_scan_eq_reference (q t : Str) (pct : Nat) (hq : 0 < q.length) :
    fuzzyScan q (q.length * pct / 100) t = referenceAccepts q t (q.length * pct / 100) :=
  fuzzyScan_eq_referenceAccepts q t _ hq

/-- Witness for claim C5 at the spec's own example: query `"hellow"`,
candidate `"hello world"`, percentage 25. -/
theorem early_exit_scan_eq_reference_witness :
    0 < (strL "hellow").length
    ∧ fuzzyScan (strL "hellow") ((strL "hellow").length * 25 / 100) (strL "hello world") =
        referenceAccepts (strL "hellow") (strL "hello world")
          ((strL "hellow").length * 25 / 100) :=
  ⟨by decide, early_exit_scan_eq_reference (strL "hellow") (strL "hello world") 25 (by decide)⟩

/-- Claim C6: raising `percentage_allowed_mismatch` (all other settings
fixed, the new value still within `[0, 50]`) never loses a returned
candidate: anything in the result at the lower percentage is in the result
at the higher one. -/
theorem percentage_mismatch_monotone (s : FuzzyMatchSettings) (p₂ : Nat)
    (hle : s.percentage_allowed_mismatch ≤ p₂) (_hr : p₂ ≤ 50)
    (q : Str) (items : List Item) (ip : Option Str) (x : Item)
    (l₁ l₂ : List Item)
    (h₁ : fuzzySearchByProperty q items ip (some s) = .ok l₁)
    (h₂ : fuzzySearchByProperty q items ip
        (some (FuzzyMatchSettings.mk s.minimum_length_for_search
          s.minimum_length_for_fuzzy_match p₂ s.case_sensitive_match)) = .ok l₂)
    (hx : x ∈ l₁) : x ∈ l₂ := by
  unfold fuzzySearchByProperty at h₁ h₂
  by_cases hq : q.length = 0
  · rw [if_pos hq] at h₁ h₂
    simp only [Except.ok.injEq] at h₁ h₂
    subst h₁; simp at hx
  · rw [if_neg hq] at h₁ h₂
    cases items with
    | nil =>
      simp only [Except.ok.injEq] at h₁ h₂
      subst h₁; simp at hx
    | cons i0 rest =>
      simp only [Option.getD_some] at h₁ h₂
      by_cases hg : guardFails ip i0 = true
      · rw [if_pos hg] at h₁
        simp at h₁
      · rw [if_neg hg] at h₁ h₂
        by_cases t1 : q.length < s.minimum_length_for_search
        · rw [if_pos t1] at h₁
          simp only [Except.ok.injEq] at h₁
          subst h₁; simp at hx
        · rw [if_neg t1] at h₁
          rw [if_neg t1] at h₂
          by_cases t2 : q.length < s.minimum_length_for_fuzzy_match
          · rw [if_pos t2] at h₁ h₂
            simp only [Except.ok.injEq] at h₁ h₂
            subst h₁; subst h₂
            exact hx
          · rw [if_neg t2] at h₁ h₂
            simp only [Except.ok.injEq] at h₁ h₂
            subst h₁; subst h₂
            unfold fuzzyTierFilter at hx ⊢
            obtain ⟨hmem, hacc⟩ := List.mem_filter.mp hx
            refine List.mem_filter.mpr ⟨hmem, ?_⟩
            have hmax : q.length * s.percentage_allowed_mismatch / 100 ≤
                q.length * p₂ / 100 :=
              Nat.div_le_div_right (Nat.mul_le_mul_left _ hle)
            exact fuzzyScan_mono hmax _ _ hacc

/-- Witness for claim C6 at a concrete input: a candidate accepted at the
default 25 percent is still accepted at 50 percent. -/
theorem percentage_mismatch_monotone_witness :
    Item.obj (some (strL "hellx")) ∈ [Item.obj (some (strL "hellx"))] :=
  percentage_mismatch_monotone defaultSettings 50 (by decide) (by decide)
    (strL "hello") [Item.obj (some (strL "hellx"))] (some (strL "p"))
    (Item.obj (some (strL "hellx")))
    [Item.obj (some (strL "hellx"))] [Item.obj (some (strL "hellx"))]
    (by decide) (by decide) (by decide)

/-- Claim C7: a falsy constructor argument — an explicit `0` for any of the
three numeric parameters, or `false` for the boolean — is replaced by the
field's default before validation, so it is indistinguishable from an
absent parameter; in particular `minimum_length_for_search = 0` does not
raise and yields the default `1` (all defaults being `1, 5, 25, false`). -/
theorem settings_falsy_params_use_defaults :
    (∀ mf pm cs, FuzzyMatchSettings.make (some 0) mf pm cs
        = FuzzyMatchSettings.make none mf pm cs)
    ∧ (∀ ms pm cs, FuzzyMatchSettings.make ms (some 0) pm cs
        = FuzzyMatchSettings.make ms none pm cs)
    ∧ (∀ ms mf cs, FuzzyMatchSettings.make ms mf (some 0) cs
        = FuzzyMatchSettings.make ms mf none cs)
    ∧ (∀ ms mf pm, FuzzyMatchSettings.make ms mf pm (some false)
        = FuzzyMatchSettings.make ms mf pm none)
    ∧ FuzzyMatchSettings.make (some 0) none none none = .ok defaultSettings
    ∧ FuzzyMatchSettings.make none none none none = .ok defaultSettings :=
  ⟨fun _ _ _ => rfl, fun _ _ _ => rfl, fun _ _ _ => rfl, fun _ _ _ => rfl, rfl, rfl⟩

/-- Claim C8: with the first two parameters valid (or absent), a supplied
`percentage_allowed_mismatch` of 51 raises the configuration error naming
that field, while 50 succeeds. -/
theorem settings_percentage_boundary (ms mf : Option Int) (cs : Option Bool)
    (hms : 0 < effParam ms 1) (hmf : 0 < effParam mf 5) :
    FuzzyMatchSettings.make ms mf (some 51) cs =
      .error "Invalid value provided for percentage_allowed_mismatch in FuzzyMatchSettings"
    ∧ ∃ st, FuzzyMatchSettings.make ms mf (some 50) cs = .ok st := by
  constructor
  · unfold FuzzyMatchSettings.make
    rw [if_neg (by omega), if_neg (by omega), if_pos]
    exact Or.inr (by decide)
  · unfold FuzzyMatchSettings.make
    rw [if_neg (by omega), if_neg (by omega),
      if_neg (by simp [effParam, maximum_allowed_mismatch])]
    exact ⟨_, rfl⟩

/-- Witness for claim C8 with both other parameters absent. -/
theorem settings_percentage_boundary_witness :
    FuzzyMatchSettings.make none none (some 51) none =
      .error "Invalid value provided for percentage_allowed_mismatch in FuzzyMatchSettings"
    ∧ ∃ st, FuzzyMatchSettings.make none none (some 50) none = .ok st :=
  settings_percentage_boundary none none none (by decide) (by decide)

/-- Claim C9: with `case_sensitive_match = false` the search result is
unchanged when the query is uniformly upper- or lower-cased, and is the
image of the original result when every candidate's carried text is
uniformly upper- or lower-cased. -/
theorem case_insensitive_invariance (s : FuzzyMatchSettings)
    (hcs : s.case_sensitive_match = false) (q : Str) (items : List Item)
    (ip : Option Str) :
    fuzzySearchByProperty (upperStr q) items ip (some s) =
        fuzzySearchByProperty q items ip (some s)
    ∧ fuzzySearchByProperty (lowerStr q) items ip (some s) =
        fuzzySearchByProperty q items ip (some s)
    ∧ fuzzySearchByProperty q (items.map (mapItemText upperStr)) ip (some s) =
        (fuzzySearchByProperty q items ip (some s)).map (List.map (mapItemText upperStr))
    ∧ fuzzySearchByProperty q (items.map (mapItemText lowerStr)) ip (some s) =
        (fuzzySearchByProperty q items ip (some s)).map (List.map (mapItemText lowerStr)) :=
  ⟨query_fold_invariant s hcs upperStr lowerStr_upperStr length_upperStr q items ip,
   query_fold_invariant s hcs lowerStr lowerStr_lowerStr length_lowerStr q items ip,
   items_fold_invariant s hcs upperStr lowerStr_upperStr q items ip,
   items_fold_invariant s hcs lowerStr lowerStr_lowerStr q items ip⟩

/-- Witness for claim C9 at a concrete input: upper-casing the query does
not change the result under the default (case-insensitive) settings. -/
theorem case_insensitive_invariance_witness :
    fuzzySearchByProperty (upperStr (strL "hello"))
        [Item.obj (some (strL "HeLLo")), Item.str (strL "xyz")]
        (some (strL "p")) (some defaultSettings) =
      fuzzySearchByProperty (strL "hello")
        [Item.obj (some (strL "HeLLo")), Item.str (strL "xyz")]
        (some (strL "p")) (some defaultSettings) :=
  (case_insensitive_invariance defaultSettings rfl (strL "hello")
    [Item.obj (some (strL "HeLLo")), Item.str (strL "xyz")] (some (strL "p"))).1

/-- Claim C10: on an empty items list `fuzzySearchByProperty` returns the
empty list for every query, property selector and settings, and never
reaches the usage-error guard, which only runs on a non-empty list. -/
theorem empty_items_returns_ok_empty (q : Str) (itemProperty : Option Str)
    (ss : Option FuzzyMatchSettings) :
    fuzzySearchByProperty q [] itemProperty ss = .ok [] := by
  unfold fuzzySearchByProperty
  by_cases h : q.length = 0 <;> simp [h]

end FuzzySearchTS
